import Mathlib

/-!
Verification of the context evaluation model of `jedi/evaluate/representation.py`:
MRO linearization, return/yield inference with reachability, the recursion
guard, execution-context identity, module name-resolution chains, instance
attribute resolution, and the temporary loop-variable binding used during
generator inference.

Classes and syntax-tree nodes are indexed by natural numbers; inferred type
sets are `Finset Nat`.  Fallible Python code is embedded via `Except`.
-/

namespace JediRep

/-! ### MRO resolution — `ClassContext.py__mro__` (representation.py 419-453) -/

/-- The `add` helper inside `ClassContext.py__mro__`:
`if cls not in mro: mro.append(cls)`. -/
def mroAdd (mro : List Nat) (c : Nat) : List Nat :=
  if c ∈ mro then mro else mro ++ [c]

/-- The method `ClassContext.py__mro__`.  Classes are indexed by `Nat`; `bases c` is the
flattened list of classes that the base expressions of class `c` infer to
(`for lazy_cls in self.py__bases__(): for cls in lazy_cls.infer()`); a base
value that does not resolve to anything with a `py__mro__` attribute (the
`AttributeError` branch) simply does not occur in the list.  In Python a base
class must already exist when the `class` statement executes, so every base
has a smaller index than the class itself (`BasesAcyclic` below); structural
fuel equal to the class index therefore covers the recursion into
`cls.py__mro__()` on each base. -/
def py__mro__fuel (bases : Nat → List Nat) : Nat → Nat → List Nat
  | 0, c => [c]
  | fuel + 1, c =>
      (bases c).foldl
        (fun mro b => (py__mro__fuel bases fuel b).foldl mroAdd (mroAdd mro b))
        [c]

/-- The MRO of a class at its natural fuel. -/
def py__mro__ (bases : Nat → List Nat) (c : Nat) : List Nat :=
  py__mro__fuel bases c c

/-- Base classes are created before the classes that use them, so base indexes
are strictly smaller. -/
def BasesAcyclic (bases : Nat → List Nat) : Prop :=
  ∀ c, ∀ b ∈ bases c, b < c

/-- Spec side (claim C1): the depth-first, left-to-right traversal of the
declared bases. -/
def mroDfsFuel (bases : Nat → List Nat) : Nat → Nat → List Nat
  | 0, c => [c]
  | fuel + 1, c => c :: ((bases c).map (mroDfsFuel bases fuel)).flatten

/-- Spec side (claim C1): DFS traversal at its natural fuel. -/
def mroDfs (bases : Nat → List Nat) (c : Nat) : List Nat :=
  mroDfsFuel bases c c

/-- Spec side (claim C1): keep only the first occurrence of each class. -/
def keepFirstAux (seen : List Nat) : List Nat → List Nat
  | [] => []
  | x :: xs =>
      if x ∈ seen then keepFirstAux seen xs else x :: keepFirstAux (x :: seen) xs

/-- Spec side (claim C1): drop every later occurrence of a class. -/
def keepFirst (l : List Nat) : List Nat := keepFirstAux [] l

/-- The diamond hierarchy from the claim: `0` = the universal `object` root,
`1` = `A`, `2` = `B(A)`, `3` = `C(A)`, `4` = `D(B, C)`.  Each base list is
what the corresponding `py__bases__` resolves to; `object` has no bases. -/
def diamondBases : Nat → List Nat
  | 1 => [0]
  | 2 => [1]
  | 3 => [1]
  | 4 => [2, 3]
  | _ => []

theorem mroAdd_of_mem {acc : List Nat} {c : Nat} (h : c ∈ acc) : mroAdd acc c = acc := by
  simp [mroAdd, h]

theorem mroAdd_of_not_mem {acc : List Nat} {c : Nat} (h : c ∉ acc) :
    mroAdd acc c = acc ++ [c] := by
  simp [mroAdd, h]

theorem mem_mroAdd {acc : List Nat} {x c : Nat} : x ∈ mroAdd acc c ↔ x ∈ acc ∨ x = c := by
  by_cases h : c ∈ acc
  · rw [mroAdd_of_mem h]
    constructor
    · exact Or.inl
    · rintro (hx | rfl) <;> [exact hx; exact h]
  · rw [mroAdd_of_not_mem h]
    simp

theorem mem_foldl_mroAdd {l : List Nat} :
    ∀ {acc : List Nat} {x : Nat}, x ∈ List.foldl mroAdd acc l ↔ x ∈ acc ∨ x ∈ l := by
  induction l with
  | nil => simp
  | cons b bs ih =>
      intro acc x
      rw [List.foldl_cons, ih, mem_mroAdd]
      simp [or_assoc]

theorem foldl_mroAdd_append {l₁ l₂ : List Nat} {acc : List Nat} :
    List.foldl mroAdd acc (l₁ ++ l₂) = List.foldl mroAdd (List.foldl mroAdd acc l₁) l₂ :=
  List.foldl_append ..

/-- Collapsing an inner dedup-append: feeding an already dedup-appended list
into another dedup-append is the same as dedup-appending the raw list. -/
theorem foldl_mroAdd_foldl (L : List Nat) :
    ∀ pre acc : List Nat,
      List.foldl mroAdd acc (List.foldl mroAdd pre L) =
        List.foldl mroAdd (List.foldl mroAdd acc pre) L := by
  induction L with
  | nil => intro pre acc; rfl
  | cons x xs ih =>
      intro pre acc
      have hstep : List.foldl mroAdd acc (mroAdd pre x) = mroAdd (List.foldl mroAdd acc pre) x := by
        by_cases h : x ∈ pre
        · rw [mroAdd_of_mem h, mroAdd_of_mem (mem_foldl_mroAdd.2 (Or.inr h))]
        · rw [mroAdd_of_not_mem h, foldl_mroAdd_append]
          rfl
      rw [List.foldl_cons, ih (mroAdd pre x) acc, hstep, List.foldl_cons]

/-- A fold of per-element dedup-appends is a dedup-append of the joined lists. -/
theorem foldl_mroAdd_join (g : Nat → List Nat) (l : List Nat) :
    ∀ a : List Nat,
      List.foldl (fun a x => List.foldl mroAdd a (g x)) a l =
        List.foldl mroAdd a ((l.map g).flatten) := by
  induction l with
  | nil => intro a; rfl
  | cons x xs ih =>
      intro a
      rw [List.foldl_cons, ih, List.map_cons, List.flatten, foldl_mroAdd_append]

theorem foldl_mroAdd_cons_dup {a : List Nat} {b : Nat} {r : List Nat} :
    List.foldl mroAdd a (b :: b :: r) = List.foldl mroAdd a (b :: r) := by
  have : mroAdd (mroAdd a b) b = mroAdd a b :=
    mroAdd_of_mem (mem_mroAdd.2 (Or.inr rfl))
  simp only [List.foldl_cons, this]

theorem mroDfsFuel_eq_cons (bases : Nat → List Nat) (fuel c : Nat) :
    mroDfsFuel bases fuel c = c :: (mroDfsFuel bases fuel c).tail := by
  cases fuel <;> rfl

/-- Collapsed form of `py__mro__fuel`: the class itself followed by, for each
base in order, the base and its own MRO, all dedup-appended from the left. -/
theorem py__mro__fuel_collapsed (bases : Nat → List Nat) (fuel c : Nat) :
    py__mro__fuel bases (fuel + 1) c =
      List.foldl mroAdd []
        (c :: ((bases c).map (fun b => b :: py__mro__fuel bases fuel b)).flatten) := by
  rw [py__mro__fuel]
  have hstep :
      (bases c).foldl
          (fun mro b => (py__mro__fuel bases fuel b).foldl mroAdd (mroAdd mro b)) [c] =
        (bases c).foldl
          (fun mro b => List.foldl mroAdd mro (b :: py__mro__fuel bases fuel b)) [c] := rfl
  rw [hstep, foldl_mroAdd_join (fun b => b :: py__mro__fuel bases fuel b) (bases c)]
  rfl

theorem foldl_congr_mem {α β : Type} {l : List β} {f g : α → β → α}
    (h : ∀ a : α, ∀ b ∈ l, f a b = g a b) :
    ∀ a : α, List.foldl f a l = List.foldl g a l := by
  induction l with
  | nil => intro a; rfl
  | cons x xs ih =>
      intro a
      rw [List.foldl_cons, List.foldl_cons, h a x (by simp)]
      exact ih (fun a b hb => h a b (by simp [hb])) _

/-- Dedup-appending the computed MRO is the same as dedup-appending the raw
depth-first traversal: the two agree up to already-dropped duplicates. -/
theorem foldl_py_eq_foldl_dfs (bases : Nat → List Nat) (hb : BasesAcyclic bases) :
    ∀ fuel c, c ≤ fuel → ∀ acc : List Nat,
      List.foldl mroAdd acc (py__mro__fuel bases fuel c) =
        List.foldl mroAdd acc (mroDfsFuel bases fuel c) := by
  intro fuel
  induction fuel with
  | zero => intro c _ acc; rfl
  | succ fuel ih =>
      intro c hc acc
      rw [py__mro__fuel_collapsed, foldl_mroAdd_foldl, mroDfsFuel]
      rw [List.foldl_nil]
      simp only [List.foldl_cons]
      rw [← foldl_mroAdd_join (fun b => b :: py__mro__fuel bases fuel b) (bases c),
        ← foldl_mroAdd_join (mroDfsFuel bases fuel) (bases c)]
      apply foldl_congr_mem
      intro a b hbmem
      have hblt : b < c := hb c b hbmem
      have hble : b ≤ fuel := by omega
      calc List.foldl mroAdd a (b :: py__mro__fuel bases fuel b)
          = List.foldl mroAdd (mroAdd a b) (py__mro__fuel bases fuel b) := rfl
        _ = List.foldl mroAdd (mroAdd a b) (mroDfsFuel bases fuel b) := ih b hble _
        _ = List.foldl mroAdd a (b :: mroDfsFuel bases fuel b) := rfl
        _ = List.foldl mroAdd a (b :: b :: (mroDfsFuel bases fuel b).tail) := by
              rw [← mroDfsFuel_eq_cons]
        _ = List.foldl mroAdd a (b :: (mroDfsFuel bases fuel b).tail) :=
              foldl_mroAdd_cons_dup
        _ = List.foldl mroAdd a (mroDfsFuel bases fuel b) := by rw [← mroDfsFuel_eq_cons]

theorem keepFirstAux_congr {s₁ s₂ : List Nat} (h : ∀ y, y ∈ s₁ ↔ y ∈ s₂) :
    ∀ l, keepFirstAux s₁ l = keepFirstAux s₂ l := by
  intro l
  induction l generalizing s₁ s₂ with
  | nil => rfl
  | cons x xs ih =>
      by_cases hx : x ∈ s₁
      · rw [keepFirstAux, keepFirstAux, if_pos hx, if_pos ((h x).1 hx)]
        exact ih h
      · rw [keepFirstAux, keepFirstAux, if_neg hx, if_neg (fun hc => hx ((h x).2 hc))]
        refine congrArg _ (ih ?_)
        intro y
        simp only [List.mem_cons, h y]

theorem foldl_mroAdd_eq_keepFirstAux (l : List Nat) :
    ∀ acc : List Nat, List.foldl mroAdd acc l = acc ++ keepFirstAux acc l := by
  induction l with
  | nil => intro acc; simp [keepFirstAux]
  | cons x xs ih =>
      intro acc
      by_cases hx : x ∈ acc
      · rw [List.foldl_cons, mroAdd_of_mem hx, keepFirstAux, if_pos hx, ih]
      · rw [List.foldl_cons, mroAdd_of_not_mem hx, keepFirstAux, if_neg hx, ih]
        rw [@keepFirstAux_congr (acc ++ [x]) (x :: acc) (by intro y; simp [or_comm]) xs]
        simp

theorem foldl_mroAdd_nil_eq_keepFirst (l : List Nat) :
    List.foldl mroAdd [] l = keepFirst l := by
  rw [foldl_mroAdd_eq_keepFirstAux, keepFirst, List.nil_append]

theorem foldl_mroAdd_prefix (l : List Nat) :
    ∀ acc : List Nat, ∃ t, List.foldl mroAdd acc l = acc ++ t := by
  induction l with
  | nil => intro acc; exact ⟨[], by simp⟩
  | cons x xs ih =>
      intro acc
      by_cases hx : x ∈ acc
      · obtain ⟨t, ht⟩ := ih acc
        exact ⟨t, by rw [List.foldl_cons, mroAdd_of_mem hx, ht]⟩
      · obtain ⟨t, ht⟩ := ih (acc ++ [x])
        exact ⟨x :: t, by rw [List.foldl_cons, mroAdd_of_not_mem hx, ht]; simp⟩

theorem foldl_mroAdd_nodup (l : List Nat) :
    ∀ acc : List Nat, acc.Nodup → (List.foldl mroAdd acc l).Nodup := by
  induction l with
  | nil => intro acc h; exact h
  | cons x xs ih =>
      intro acc h
      by_cases hx : x ∈ acc
      · rw [List.foldl_cons, mroAdd_of_mem hx]; exact ih acc h
      · rw [List.foldl_cons, mroAdd_of_not_mem hx]
        exact ih _ (by simp [List.nodup_append, h, hx])

/-- Every `py__mro__fuel` result is a left-fold of `mroAdd` over some list
starting from the empty accumulator. -/
theorem py__mro__fuel_is_dedup (bases : Nat → List Nat) (fuel c : Nat) :
    ∃ X, py__mro__fuel bases fuel c = List.foldl mroAdd [] X := by
  cases fuel with
  | zero => exact ⟨[c], by simp [py__mro__fuel, mroAdd]⟩
  | succ fuel =>
      exact ⟨c :: ((bases c).map (fun b => b :: py__mro__fuel bases fuel b)).flatten,
        py__mro__fuel_collapsed ..⟩

/-- C1 (amended): for every acyclic class hierarchy, `py__mro__` returns the
depth-first, left-to-right traversal of the declared bases with only the first
occurrence of each class kept; its first element is the class itself and no
class appears twice.  (The diamond example of the claim evaluates to
`[D, B, A, object, C]`, not `[D, B, C, A, object]`; see the counterexample.) -/
theorem C1_mro_dfs_keep_first (bases : Nat → List Nat) (hb : BasesAcyclic bases) (c : Nat) :
    py__mro__ bases c = keepFirst (mroDfs bases c) ∧
      (py__mro__ bases c).head? = some c ∧
      (py__mro__ bases c).Nodup := by
  obtain ⟨X, hX⟩ := py__mro__fuel_is_dedup bases c c
  have hself : py__mro__ bases c = List.foldl mroAdd [] (py__mro__ bases c) := by
    rw [py__mro__, hX, foldl_mroAdd_foldl]
    rfl
  refine ⟨?_, ?_, ?_⟩
  · rw [hself, py__mro__, foldl_py_eq_foldl_dfs bases hb c c le_rfl,
      foldl_mroAdd_nil_eq_keepFirst, mroDfs]
  · have hcons : py__mro__ bases c =
        List.foldl mroAdd [] (mroDfsFuel bases c c) := by
      rw [hself, py__mro__, foldl_py_eq_foldl_dfs bases hb c c le_rfl]
    rw [hcons, mroDfsFuel_eq_cons bases c c, List.foldl_cons]
    have : mroAdd [] c = [c] := by simp [mroAdd]
    rw [this]
    obtain ⟨t, ht⟩ := foldl_mroAdd_prefix ((mroDfsFuel bases c c).tail) [c]
    rw [ht]
    rfl
  · rw [hself]
    exact foldl_mroAdd_nodup _ [] List.nodup_nil

/-- Witness for C1: the diamond hierarchy is acyclic and the theorem's
conclusions evaluate there concretely. -/
theorem C1_mro_dfs_keep_first_witness :
    py__mro__ diamondBases 4 = keepFirst (mroDfs diamondBases 4) ∧
      (py__mro__ diamondBases 4).head? = some 4 ∧
      (py__mro__ diamondBases 4).Nodup := by
  have hb : BasesAcyclic diamondBases := by
    intro c b hbmem
    match c with
    | 0 => simp [diamondBases] at hbmem
    | 1 => simp [diamondBases] at hbmem; omega
    | 2 => simp [diamondBases] at hbmem; omega
    | 3 => simp [diamondBases] at hbmem; omega
    | 4 => rcases (by simpa [diamondBases] using hbmem : b = 2 ∨ b = 3) with h | h <;> omega
    | (n + 5) => simp [diamondBases] at hbmem
  exact C1_mro_dfs_keep_first diamondBases hb 4

/-- C1 counterexample: on the diamond `A; B(A); C(A); D(B, C)` the code
computes `mro(D) = [D, B, A, object, C]`, not the `[D, B, C, A, object]`
asserted by the claim. -/
theorem C1_counterexample :
    py__mro__ diamondBases 4 = [4, 2, 1, 0, 3] ∧
      py__mro__ diamondBases 4 ≠ [4, 2, 3, 1, 0] := by
  constructor
  · rfl
  · decide

/-! ### Return-value inference with reachability —
`FunctionExecutionContext.get_return_values` (representation.py 619-659) -/

/-- The tri-state classification produced by the external reachability checker
(`flow_analysis.REACHABLE` / `UNREACHABLE` / `UNSURE`). -/
inductive Reachability where
  | reachable
  | unreachable
  | unsure
deriving DecidableEq

/-- How a return statement is guarded in the source text, the input of the
reachability checker. -/
inductive Guard where
  | plain
  | underTrue
  | underFalse
  | underUnknown
deriving DecidableEq

/-- Modelled from the spec: the external flow-reachability checker
(`jedi.evaluate.flow_analysis.reachability_check`, not under `src/`) — a
statement that definitely executes (unconditional, or guarded by an
always-true condition) is classified REACHABLE, a statement under an
always-false condition UNREACHABLE, and a statement whose condition the
analyzer cannot decide gets the uncertain status. -/
def reachability_check : Guard → Reachability
  | .plain => .reachable
  | .underTrue => .reachable
  | .underFalse => .unreachable
  | .underUnknown => .unsure

/-- One `return` statement: its guard and the types that evaluating its
expression (`self.eval_node(r.children[1])`) yields. -/
structure ReturnStmt where
  guard : Guard
  types : Finset Nat
deriving DecidableEq

/-- The `for r in returns` loop of `get_return_values` (with
`check_yields=False`): an UNREACHABLE return is skipped, any other return is
evaluated and its types added, and the loop breaks right after evaluating a
return classified REACHABLE. -/
def returnLoop (types : Finset Nat) : List ReturnStmt → Finset Nat
  | [] => types
  | r :: rest =>
      match reachability_check r.guard with
      | .unreachable => returnLoop types rest
      | .unsure => returnLoop (types ∪ r.types) rest
      | .reachable => types ∪ r.types

/-- The method `FunctionExecutionContext.get_return_values` for a non-generator
function: the union of docstring-derived types and type-hint-derived types
(`docstrings.find_return_types` / `pep0484.find_return_types`, external
collaborators whose outputs are the first two arguments) seeded into the
reachability loop over the `return` statements in source order. -/
def get_return_values (docTypes hintTypes : Finset Nat)
    (returns : List ReturnStmt) : Finset Nat :=
  returnLoop (docTypes ∪ hintTypes) returns

/-- Spec side (claim C2): the returns actually evaluated — every return not
classified UNREACHABLE, in source order, up to and including the first one
classified REACHABLE. -/
def evaluatedReturns : List ReturnStmt → List (Finset Nat)
  | [] => []
  | r :: rest =>
      match reachability_check r.guard with
      | .unreachable => evaluatedReturns rest
      | .unsure => r.types :: evaluatedReturns rest
      | .reachable => [r.types]

/-- The union of a list of type sets. -/
def unionList (l : List (Finset Nat)) : Finset Nat :=
  l.foldl (· ∪ ·) ∅

theorem foldl_union_eq (l : List (Finset Nat)) :
    ∀ x : Finset Nat, l.foldl (· ∪ ·) x = x ∪ unionList l := by
  induction l with
  | nil => intro x; simp [unionList]
  | cons a as ih =>
      intro x
      have h1 : (a :: as).foldl (· ∪ ·) x = (x ∪ a) ∪ unionList as := by
        rw [List.foldl_cons, ih]
      have h2 : unionList (a :: as) = a ∪ unionList as := by
        show (a :: as).foldl (· ∪ ·) ∅ = _
        rw [List.foldl_cons, ih, Finset.empty_union]
      rw [h1, h2, Finset.union_assoc]

theorem unionList_cons (a : Finset Nat) (l : List (Finset Nat)) :
    unionList (a :: l) = a ∪ unionList l := by
  show (a :: l).foldl (· ∪ ·) ∅ = _
  rw [List.foldl_cons, foldl_union_eq, Finset.empty_union]

theorem returnLoop_eq (returns : List ReturnStmt) :
    ∀ types : Finset Nat,
      returnLoop types returns = types ∪ unionList (evaluatedReturns returns) := by
  induction returns with
  | nil => intro types; simp [returnLoop, evaluatedReturns, unionList]
  | cons r rest ih =>
      intro types
      rw [returnLoop, evaluatedReturns]
      cases reachability_check r.guard with
      | unreachable => exact ih types
      | unsure =>
          rw [ih (types ∪ r.types), unionList_cons, Finset.union_assoc]
      | reachable =>
          rw [unionList_cons, unionList, List.foldl_nil, Finset.union_empty]

/-- The function of C2's example: `return 1` (unconditional), then `return 2`
under an always-true condition, then `return 3` under an always-false
condition; the three return expressions evaluate to the singleton type sets
`{1}`, `{2}`, `{3}`. -/
def exampleReturns : List ReturnStmt :=
  [⟨.plain, {1}⟩, ⟨.underTrue, {2}⟩, ⟨.underFalse, {3}⟩]

/-- C2 (amended): `get_return_values` is the union of docstring types,
type-hint types, and the types of the evaluated returns — every return not
classified UNREACHABLE, in source order, up to and including the first one
classified REACHABLE, after which iteration stops.  In the claim's example
the unconditional `return 1` is itself classified REACHABLE and stops the
loop, so exactly the first return expression's types contribute. -/
theorem C2_return_values_characterization :
    (∀ (docTypes hintTypes : Finset Nat) (returns : List ReturnStmt),
        get_return_values docTypes hintTypes returns =
          docTypes ∪ hintTypes ∪ unionList (evaluatedReturns returns)) ∧
      get_return_values ∅ ∅ exampleReturns = {1} := by
  constructor
  · intro docTypes hintTypes returns
    exact returnLoop_eq returns (docTypes ∪ hintTypes)
  · decide

/-- C2 counterexample: on the claim's example the code stops after evaluating
the first (unconditionally REACHABLE) return, so the result is the types of
`return 1` alone — not "exactly the first two return expressions' types". -/
theorem C2_counterexample :
    get_return_values ∅ ∅ exampleReturns = {1} ∧
      get_return_values ∅ ∅ exampleReturns ≠ ({1, 2} : Finset Nat) := by
  constructor <;> decide

/-! ### Recursion guard — `@recursion.execution_recursion_decorator` on
`get_return_values` and `get_yield_values` (representation.py 619-621, 671-672) -/

/-- A function execution is keyed by the pair
(function-definition node, argument-list). -/
abbrev CallKey := Nat × Nat

/-- Modelled from the spec: the recursion guard
`jedi.evaluate.recursion.execution_recursion_decorator` (its implementation is
not under `src/`; `src` only applies it as a decorator).  Before evaluating,
the current (function-definition, argument-list) pair is pushed onto the
per-evaluator active-calls stack; if it is already present, evaluation
short-circuits to the empty result instead of recursing.  `calls k` lists the
pairs whose return values the body of `k` evaluates in turn; `univ` is the
finite set of pairs occurring in the program, which bounds the stack. -/
def guardedEval (calls : CallKey → List CallKey) (univ : Finset CallKey) :
    List CallKey → CallKey → Finset Nat
  | stack, k =>
      if h : k ∈ stack ∨ k ∉ univ then ∅
      else
        (calls k).foldl (fun acc k2 => acc ∪ guardedEval calls univ (k :: stack) k2) ∅
termination_by stack _ => (univ \ stack.toFinset).card
decreasing_by
  push_neg at h
  have hk : k ∈ univ \ stack.toFinset := by
    rw [Finset.mem_sdiff]
    exact ⟨h.2, by simpa using h.1⟩
  calc (univ \ (k :: stack).toFinset).card
      = ((univ \ stack.toFinset).erase k).card := by
        rw [List.toFinset_cons, Finset.sdiff_insert]
    _ < (univ \ stack.toFinset).card := Finset.card_erase_lt_of_mem hk

/-- Modelled from the spec: pushing the current pair onto the active-calls
stack. -/
def guardPush (stack : List CallKey) (k : CallKey) : List CallKey := k :: stack

/-- Modelled from the spec: popping the entry on completion. -/
def guardPop (stack : List CallKey) : List CallKey := stack.tail

/-- Modelled from the spec: the decorator around one wrapped computation
`compute` (which receives the pushed stack), returning the result together
with the stack left behind on completion. -/
def recursion_guard_run (compute : List CallKey → Finset Nat)
    (stack : List CallKey) (k : CallKey) : Finset Nat × List CallKey :=
  if k ∈ stack then (∅, stack)
  else (compute (guardPush stack k), guardPop (guardPush stack k))

/-- Calls made by `def f(): return f()`: function node `0`, argument list `0`;
its body evaluates exactly the re-entrant call `f()`. -/
def selfRecCalls : CallKey → List CallKey
  | (0, 0) => [(0, 0)]
  | _ => []

/-- Calls made by the mutual-recursion analogue `def f(): return g()`,
`def g(): return f()`. -/
def mutualCalls : CallKey → List CallKey
  | (0, 0) => [(1, 0)]
  | (1, 0) => [(0, 0)]
  | _ => []

/-- C3: a re-entrant (function-definition, argument-list) pair short-circuits
to the empty result, so inference of `def f(): return f()` and of the
two-function mutual-recursion analogue terminates (`guardedEval` is a total
function) with the empty result set; and the guard leaves the active-calls
stack exactly as it found it on every completion path. -/
theorem C3_recursion_guard_terminates :
    guardedEval selfRecCalls {(0, 0)} [] (0, 0) = ∅ ∧
      guardedEval mutualCalls {(0, 0), (1, 0)} [] (0, 0) = ∅ ∧
      ∀ (compute : List CallKey → Finset Nat) (stack : List CallKey) (k : CallKey),
        (recursion_guard_run compute stack k).2 = stack := by
  refine ⟨?_, ?_, ?_⟩
  · rw [guardedEval, dif_neg (by decide)]
    rw [show selfRecCalls (0, 0) = [(0, 0)] from rfl, List.foldl_cons, List.foldl_nil]
    rw [guardedEval, dif_pos (by decide)]
    decide
  · rw [guardedEval, dif_neg (by decide)]
    rw [show mutualCalls (0, 0) = [(1, 0)] from rfl, List.foldl_cons, List.foldl_nil]
    rw [guardedEval, dif_neg (by decide)]
    rw [show mutualCalls (1, 0) = [(0, 0)] from rfl, List.foldl_cons, List.foldl_nil]
    rw [guardedEval, dif_pos (by decide)]
    decide
  · intro compute stack k
    rw [recursion_guard_run]
    by_cases h : k ∈ stack
    · rw [if_pos h]
    · rw [if_neg h]
      rfl

/-! ### Execution-context identity — `FunctionContext.py__call__`
(representation.py 555-563) and `FunctionExecutionContext.__init__`
(representation.py 587-614) -/

/-- An argument list, compared structurally. -/
abbrev ArgList := List Nat

/-- A `FunctionExecutionContext`.  Unlike `Instance`, `ClassContext`,
`FunctionContext` and `InstanceElement`, its class statement does not use
`use_metaclass(CachedMetaClass, ...)`, so each construction allocates a fresh
Python object and no interning by constructor arguments happens; `objId`
records that object identity. -/
structure FunctionExecutionContext where
  objId : Nat
  funcdef : Nat
  var_args : ArgList
deriving DecidableEq

/-- The allocator: the next fresh object identity. -/
structure AllocState where
  nextId : Nat
deriving DecidableEq

/-- The method `FunctionContext.py__call__`: builds a
`FunctionExecutionContext` from the function's definition node and the call's
parameters.  Construction is a plain allocation (no caching metaclass on the
class), so it returns a fresh object and advances the allocator. -/
def py__call__ (funcdef : Nat) (params : ArgList) (st : AllocState) :
    FunctionExecutionContext × AllocState :=
  (⟨st.nextId, funcdef, params⟩, ⟨st.nextId + 1⟩)

/-- C4 (amended): every call produces a fresh `FunctionExecutionContext`:
two successive calls — to any functions, with any argument lists, in
particular structurally equal ones — yield execution entities with distinct
object identities, hence never one shared entity; per-object memoization of
`get_return_values` therefore never lets two separate calls share a cached
result object. -/
theorem C4_fresh_execution_per_call (st : AllocState) (f₁ f₂ : Nat) (a₁ a₂ : ArgList) :
    (py__call__ f₁ a₁ st).1.objId ≠ (py__call__ f₂ a₂ (py__call__ f₁ a₁ st).2).1.objId ∧
      (py__call__ f₁ a₁ st).1.var_args = a₁ ∧
      (py__call__ f₂ a₂ (py__call__ f₁ a₁ st).2).1.var_args = a₂ := by
  refine ⟨?_, rfl, rfl⟩
  simp [py__call__]

/-- C4 counterexample: two calls to the same function with structurally equal
argument lists produce two distinct execution entities (different object
identities), so they do not share one cached result object. -/
theorem C4_counterexample :
    (py__call__ 0 [5] ⟨0⟩).1.var_args =
        (py__call__ 0 [5] (py__call__ 0 [5] ⟨0⟩).2).1.var_args ∧
      (py__call__ 0 [5] ⟨0⟩).1 ≠ (py__call__ 0 [5] (py__call__ 0 [5] ⟨0⟩).2).1 := by
  constructor <;> decide

/-! ### Module name-resolution chain — `ModuleContext.names_dicts`
(representation.py 783-791), `ModuleContext.get_filters` (793-805),
`ModuleContext.star_imports` (811-822) -/

/-- One layer of a module's name-resolution chain, tagged by where its names
come from: the module's own definitions, the synthesized module attributes
(`_module_attributes_dict`: `__file__`, `__package__`, `__doc__`,
`__name__`), one star-imported module, the declared-global names, or the
sub-modules discovered on disk (`_sub_modules_dict`). -/
inductive NameSource where
  | localDefs
  | moduleAttrs
  | starModule (m : Nat)
  | globalNames
  | subModules
deriving DecidableEq

/-- The method `ModuleContext.star_imports` (811-822).  Modules are indexed by
`Nat`; `starTargets m` lists, for each star-import statement of module `m` in
source order, the modules that `imports.ImportWrapper(self, name).follow()`
resolves it to (an external collaborator).  For each import the loop first
appends the recursively collected star-closures of the followed modules and
then the followed modules themselves.  A module must exist before it can be
star-imported, so targets have smaller indexes and fuel equal to the module
index bounds the recursion; a compiled (non-tree) followed module is one with
no star imports of its own. -/
def star_imports_fuel (starTargets : Nat → List (List Nat)) : Nat → Nat → List Nat
  | 0, _ => []
  | fuel + 1, m =>
      (starTargets m).foldl
        (fun modules new =>
          modules ++
            new.foldl (fun acc md => acc ++ star_imports_fuel starTargets fuel md) [] ++
            new)
        []

/-- The star-import closure at its natural fuel. -/
def star_imports (starTargets : Nat → List (List Nat)) (m : Nat) : List Nat :=
  star_imports_fuel starTargets m m

/-- The method `ModuleContext.names_dicts` (783-791): the module's own
`names_dict`, the synthesized module attributes, the `names_dict` of every
star-imported module (recursively flattened), the declared-global names, and
the on-disk sub-module names, in that order. -/
def module_names_dicts (starTargets : Nat → List (List Nat)) (m : Nat) :
    List NameSource :=
  [.localDefs, .moduleAttrs] ++
    (star_imports starTargets m).map .starModule ++
    [.globalNames, .subModules]

/-- The method `ModuleContext.get_filters` (793-805): the module's
`ParserTreeFilter`, the `GlobalNameFilter`, the `DictFilter` over
`_sub_modules_dict`, the `DictFilter` over `_module_attributes_dict`, and the
first filter of every star-imported module, in that order. -/
def module_get_filters (starTargets : Nat → List (List Nat)) (m : Nat) :
    List NameSource :=
  [.localDefs, .globalNames, .subModules, .moduleAttrs] ++
    (star_imports starTargets m).map .starModule

/-- Spec side (claim C5): the claimed priority order — local definitions,
synthesized module attributes, wildcard-import names (recursively flattened),
declared-global names, sub-module names discovered on disk. -/
def claimedModuleChain (starTargets : Nat → List (List Nat)) (m : Nat) :
    List NameSource :=
  [.localDefs, .moduleAttrs] ++
    (star_imports starTargets m).map .starModule ++
    [.globalNames, .subModules]

/-- A module with no star imports at all. -/
def noStarTargets : Nat → List (List Nat) := fun _ => []

/-- C5 (amended): the `names_dicts` chain enumerates name sources in exactly
the claimed priority order, for every module; the `get_filters` chain of the
same transitional code does not — it puts global names and sub-modules before
the module attributes and the star imports (see the counterexample). -/
theorem C5_names_dicts_order (starTargets : Nat → List (List Nat)) (m : Nat) :
    module_names_dicts starTargets m = claimedModuleChain starTargets m ∧
      module_names_dicts starTargets m =
        [.localDefs, .moduleAttrs] ++
          (star_imports starTargets m).map .starModule ++
          [.globalNames, .subModules] :=
  ⟨rfl, rfl⟩

/-- C5 counterexample: on a module with no star imports, the `get_filters`
chain enumerates local definitions, global names, sub-modules, module
attributes — not the claimed order with module attributes second. -/
theorem C5_counterexample :
    module_get_filters noStarTargets 0 =
        [.localDefs, .globalNames, .subModules, .moduleAttrs] ∧
      module_get_filters noStarTargets 0 ≠ claimedModuleChain noStarTargets 0 := by
  constructor
  · rfl
  · decide

/-! ### Subscope lookup and instance construction —
`ClassContext.get_subscope_by_name` (representation.py 502-508),
`Instance.__init__` (79-99), `Instance.py__getitem__` (220-228),
`Instance.py__iter__` (230-248), `Instance._self_names_dict` (142-173) -/

/-- The Python exceptions arising in the embedded paths. -/
inductive PyExc where
  | keyError
  | deprecationWarning
  | attributeError
deriving DecidableEq

/-- The method `ClassContext.get_subscope_by_name` (502-508): its first
statement is `raise DeprecationWarning`; the MRO walk over subscopes and the
`raise KeyError(...)` fallback below it are unreachable.  Successful results
would be the subscope's node index. -/
def classContext_get_subscope_by_name (_cls : Nat) (_name : String) :
    Except PyExc Nat :=
  .error .deprecationWarning

/-- The method `Instance.get_subscope_by_name` (175-177): delegates to the
class context's lookup and wraps the result through `get_instance_el`, which
returns its argument unchanged (the unconditional `return var` at line 294
precedes all wrapping logic). -/
def instance_get_subscope_by_name (cls : Nat) (name : String) :
    Except PyExc Nat :=
  classContext_get_subscope_by_name cls name

/-- The observable outcome of `Instance.__init__`. -/
structure InstanceInitResult where
  /-- `self.var_args` was replaced by the container-content analyzer
  (`iterable.check_array_instances`) -/
  containerAnalyzed : Bool
  /-- the execution stored in `self._init_execution` (the index of the
  executed `__init__`), if any -/
  initExecution : Option Nat
deriving DecidableEq

/-- The method `Instance.__init__` (79-99).  `className` is
`class_context.name.string_name`; `parentIsBuiltins` is the test
`evaluator.BUILTINS == parent_context.get_root_context()`; an `.ok` from the
subscope lookup would flow into `evaluator.execute(method, self.var_args)`
whose execution we record by the method's index.  Only `KeyError` is caught
(`except KeyError: pass`); every other exception propagates out of the
constructor. -/
def instance_init (className : String) (parentIsBuiltins : Bool)
    (is_generated : Bool) (cls : Nat) : Except PyExc InstanceInitResult :=
  if (className = "list" ∨ className = "set") ∧ parentIsBuiltins then
    .ok ⟨true, none⟩
  else if ¬is_generated then
    match instance_get_subscope_by_name cls "__init__" with
    | .error .keyError => .ok ⟨false, none⟩
    | .error e => .error e
    | .ok m => .ok ⟨false, some m⟩
  else
    .ok ⟨false, none⟩

/-- C8 (code bug): constructing a plain (non-container, non-generated)
instance raises `DeprecationWarning` out of
`ClassContext.get_subscope_by_name` — only `KeyError` is caught — so the
constructor method is never executed; a generated instance skips construction
and a builtin `list`/`set` instance delegates to the container analyzer, as
claimed. -/
theorem C8_instance_init_raises :
    instance_init "C" false false 7 = .error .deprecationWarning ∧
      instance_init "C" false true 7 = .ok ⟨false, none⟩ ∧
      instance_init "list" true false 7 = .ok ⟨true, none⟩ := by
  refine ⟨rfl, ?_, rfl⟩
  rfl

/-- The method `Instance.py__getitem__` (220-228): look up `__getitem__`; on
`KeyError` log `debug.warning` and return the empty set; otherwise execute
the method with the index object (`evaluator.execute_evaluated`, abstracted
as `executeMethod`). -/
def py__getitem__ (cls : Nat) (executeMethod : Nat → Nat → Finset Nat)
    (index : Nat) : Except PyExc (Finset Nat) :=
  match instance_get_subscope_by_name cls "__getitem__" with
  | .error .keyError => .ok ∅
  | .error e => .error e
  | .ok m => .ok (executeMethod m index)

/-- The method `Instance.py__iter__` (230-248): look up `__iter__`; on
`KeyError` log `debug.warning` and yield nothing (an empty generator);
otherwise iterate the executions of the method (abstracted as
`iterateMethod`). -/
def py__iter__ (cls : Nat) (iterateMethod : Nat → List (Finset Nat)) :
    Except PyExc (List (Finset Nat)) :=
  match instance_get_subscope_by_name cls "__iter__" with
  | .error .keyError => .ok []
  | .error e => .error e
  | .ok m => .ok (iterateMethod m)

/-- C9 (code bug): the degrade-to-empty handlers of `py__getitem__` and
`py__iter__` (`except KeyError: ... return set()` / yield nothing) are dead:
the subscope lookup unconditionally raises `DeprecationWarning`, which is not
a `KeyError`, so the exception escapes these public queries instead of an
empty result being returned. -/
theorem C9_getitem_iter_raise :
    py__getitem__ 7 (fun _ _ => ∅) 0 = .error .deprecationWarning ∧
      py__iter__ 7 (fun _ => []) = .error .deprecationWarning :=
  ⟨rfl, rfl⟩

/-! ### Instance attribute resolution — `Instance._self_names_dict`
(representation.py 142-173), `Instance.names_dicts` (194-205) -/

/-- One occurrence of a name in a method's `names_dict`: the name's text,
whether it has a previous sibling, and — when its next sibling is a two-child
dot trailer (the `self.attr` shape tested at lines 165-168) — the attribute
name after the dot plus whether that attribute occurrence is a definition. -/
structure NameOccurrence where
  value : String
  hasPrevSibling : Bool
  dotTrailer : Option (String × Bool)
deriving DecidableEq

/-- A subscope of a class body: a nested class, or a method with its name,
parameters, decorators, and `names_dict`. -/
structure SubScope where
  isClassScope : Bool
  name : String
  params : List String
  hasDecorators : Bool
  namesDict : List (String × List NameOccurrence)
deriving DecidableEq

/-- The inner scan of `_self_names_dict` over one method's `names_dict`
(lines 162-172): collect every attribute defined through
`selfparam.attr = ...` — an occurrence of the self-parameter name with no
previous sibling whose dot-trailer attribute is a definition. -/
def selfAttrScan (selfName : String)
    (namesDict : List (String × List NameOccurrence)) : List String :=
  namesDict.foldl
    (fun acc entry =>
      entry.2.foldl
        (fun acc occ =>
          if occ.value = selfName ∧ occ.hasPrevSibling = false then
            match occ.dotTrailer with
            | some (attr, true) => acc ++ [attr]
            | _ => acc
          else acc)
        acc)
    []

/-- The method `Instance._self_names_dict` (142-173): walk the class's
subscopes; skip nested classes and methods without parameters (no self name);
for an undecorated `__init__` on a non-generated instance, replace the
subscope by `self._get_init_execution()` — which calls
`Instance.get_subscope_by_name` and therefore raises `DeprecationWarning`
(its handler catches `KeyError` only); otherwise scan the method's
`names_dict` for self-attribute definitions. -/
def _self_names_dict (subscopes : List SubScope) (is_generated : Bool) :
    Except PyExc (List String) :=
  subscopes.foldlM
    (fun names sub =>
      if sub.isClassScope then .ok names
      else
        match sub.params.head? with
        | none => .ok names
        | some selfName =>
            if sub.name = "__init__" ∧ is_generated = false ∧
                sub.hasDecorators = false then
              (.error .deprecationWarning : Except PyExc (List String))
            else
              .ok (names ++ selfAttrScan selfName sub.namesDict))
    []

/-- A model class for attribute resolution: its subscopes and its class-body
attribute names (its `names_dict` as consumed by `ClassContext.names_dicts`
with `search_global=False, is_instance=True`). -/
structure ClassShape where
  subscopes : List SubScope
  classBodyNames : List String
deriving DecidableEq

/-- One layer of an instance's attribute-resolution chain. -/
inductive InstanceLayer where
  | selfLayer (names : List String)
  | classLayer (names : List String)
deriving DecidableEq

/-- The method `Instance.names_dicts` (194-205): first the instance's own
`_self_names_dict()`; then, for every ancestor in `py__mro__()[1:]`, the
`_self_names_dict` of an executed instance of that ancestor (executed
instances are not generated, so their scan takes the same `__init__` path);
finally the class's `names_dicts(search_global=False, is_instance=True)` —
one `names_dict` per MRO entry — each wrapped lazily in a `LazyInstanceDict`.
`mroClasses` is the class's MRO with the class itself at the head. -/
def instance_names_dicts (mroClasses : List ClassShape) (is_generated : Bool) :
    Except PyExc (List InstanceLayer) :=
  match mroClasses with
  | [] => .ok []
  | ownClass :: ancestors => do
      let own ← _self_names_dict ownClass.subscopes is_generated
      let ancLayers ← ancestors.mapM (fun anc => do
        let d ← _self_names_dict anc.subscopes false
        return InstanceLayer.selfLayer d)
      let classLayers := (ownClass :: ancestors).map
        (fun c => InstanceLayer.classLayer c.classBodyNames)
      return (InstanceLayer.selfLayer own :: ancLayers) ++ classLayers

/-- Names offered by one layer. -/
def layerNames : InstanceLayer → List String
  | .selfLayer names => names
  | .classLayer names => names

/-- Modelled from the spec: the external finder queries the chain's dicts in
order and returns the matches of the first layer that has any; this function
returns the index of that layer. -/
def resolveAttrLayer (layers : List InstanceLayer) (attr : String) : Option Nat :=
  layers.findIdx? (fun l => (layerNames l).contains attr)

/-- The example class of the claim: `__init__(self)` assigns `self.x = 1`
(one occurrence of `self` with a dot-trailer definition of `x`), and the
class body also defines `x` at class level. -/
def shadowingClass : ClassShape where
  subscopes :=
    [{ isClassScope := false
       name := "__init__"
       params := ["self"]
       hasDecorators := false
       namesDict := [("self", [⟨"self", false, some ("x", true)⟩])] }]
  classBodyNames := ["x"]

/-- C6 (code bug): resolving attributes of a non-generated instance whose
class has an undecorated constructor raises `DeprecationWarning` (the
executed-constructor scan goes through the poisoned subscope lookup) instead
of returning the constructor-assigned attribute; the static scan that a
generated instance takes does produce the claimed chain, with the
constructor-assigned `x` in the first (self) layer ahead of the class-level
layer. -/
theorem C6_self_attr_resolution_raises :
    instance_names_dicts [shadowingClass] false = .error .deprecationWarning ∧
      instance_names_dicts [shadowingClass] true =
        .ok [.selfLayer ["x"], .classLayer ["x"]] ∧
      (resolveAttrLayer [.selfLayer ["x"], .classLayer ["x"]] "x" = some 0) := by
  refine ⟨rfl, rfl, ?_⟩
  rfl

/-! ### Generator yield grouping — `FunctionExecutionContext.get_yield_values`
(representation.py 671-697) -/

/-- Kinds of parse-tree nodes relevant to the yield walk. -/
inductive NodeKind where
  | for_stmt
  | while_stmt
  | if_stmt
  | suite
  | funcdef
  | module
  | yield_expr
  | other
deriving DecidableEq

/-- A parse-tree node: kind, parent (none for the module root) and, for a
`for` statement, whether it binds exactly one name (`defines_one_name()`). -/
structure TreeNode where
  kind : NodeKind
  parent : Option Nat
  definesOneName : Bool
deriving DecidableEq

/-- A parse tree as a finite array of nodes; a node's id is its index. -/
abbrev Tree := List TreeNode

/-- The stop classes of the walk: `stopAt = tree.ForStmt, tree.WhileStmt,
tree.IfStmt` (line 674 — note `tree.Function` is not included). -/
def isStopAt (k : NodeKind) : Bool :=
  k = NodeKind.for_stmt ∨ k = NodeKind.while_stmt ∨ k = NodeKind.if_stmt

/-- The call `x.get_parent_until((stopAt))`: walk upward from the node until
a node of a stop kind is found; when the walk runs out at the root, return
the root (the module node).  Fuel equal to the tree size bounds the strictly
ancestor-ward walk. -/
def get_parent_until (tree : Tree) : Nat → Nat → Nat
  | 0, n => n
  | fuel + 1, n =>
      match tree[n]? with
      | none => n
      | some node =>
          if isStopAt node.kind then n
          else
            match node.parent with
            | none => n
            | some p => get_parent_until tree fuel p

/-- Comparison of a parse-tree node (or `None`) with the
`FunctionExecutionContext` object — `parent == self` at line 686 and
`for_stmt == self` at line 692.  The deep-copy re-parenting that once placed
the execution context into the funcdef's tree is commented out (lines
606-614), and parse-tree nodes compare by identity with objects that are not
tree nodes, so the comparison is false for every node of the tree. -/
def equalsExecutionContext (_n : Option Nat) : Bool := false

/-- The outcome of the grouping phase of `get_yield_values` (675-697). -/
inductive YieldsOrder where
  /-- the ordered path: groups of (for-statement, yields) or (none, yields) -/
  | ordered (groups : List (Option Nat × List Nat))
  /-- the `else` branch: `yield self.get_return_values(check_yields=True)`,
  one merged unordered aggregate for all yields, equivalent to the
  non-generator return-value computation -/
  | fallbackMerged
  /-- an uncaught `AttributeError`: `parent.type` with `parent = None` -/
  | crash
deriving DecidableEq

/-- The grouping loop of `get_yield_values` (679-697).  The accumulator keeps
the groups most-recent-first (`yields_order[-1][1].append(...)` mutates the
head); `lastFor` is `last_for_stmt`. -/
def yieldGroupingLoop (tree : Tree) :
    List (Option Nat × List Nat) → Option Nat → List Nat → YieldsOrder
  | acc, _, [] => .ordered acc.reverse
  | acc, lastFor, y :: rest =>
      let fs := get_parent_until tree tree.length y
      match tree[fs]? with
      | none => .crash
      | some fnode =>
          match fnode.parent with
          | none => .crash
          | some p =>
              let parent : Option Nat :=
                if (tree[p]?).map (·.kind) = some NodeKind.suite then
                  (tree[p]?).bind (·.parent)
                else some p
              if fnode.kind = NodeKind.for_stmt ∧
                  equalsExecutionContext parent = true ∧
                  fnode.definesOneName = true then
                match lastFor, acc with
                | some lf, (g, ys) :: accTail =>
                    if fs = lf then
                      yieldGroupingLoop tree ((g, ys ++ [y]) :: accTail) (some fs) rest
                    else
                      yieldGroupingLoop tree ((some fs, [y]) :: (g, ys) :: accTail)
                        (some fs) rest
                | _, _ =>
                    yieldGroupingLoop tree ((some fs, [y]) :: acc) (some fs) rest
              else if equalsExecutionContext (some fs) = true then
                yieldGroupingLoop tree ((none, [y]) :: acc) (some fs) rest
              else .fallbackMerged

/-- The grouping phase over the function's yields in source order. -/
def yieldGrouping (tree : Tree) (yields : List Nat) : YieldsOrder :=
  yieldGroupingLoop tree [] none yields

/-- The tree of `def g(): for x in [1, 2]: yield x`: module 0, funcdef 1, its
suite 2, the single-name `for` statement 3, its suite 4, the yield 5. -/
def exampleGenTree : Tree :=
  [⟨.module, none, false⟩,
   ⟨.funcdef, some 0, false⟩,
   ⟨.suite, some 1, false⟩,
   ⟨.for_stmt, some 2, true⟩,
   ⟨.suite, some 3, false⟩,
   ⟨.yield_expr, some 4, false⟩]

/-- The tree of `def g(): yield 1`: module 0, funcdef 1, its suite 2, the
yield 3 — no enclosing for/while/if at all. -/
def bareYieldTree : Tree :=
  [⟨.module, none, false⟩,
   ⟨.funcdef, some 0, false⟩,
   ⟨.suite, some 1, false⟩,
   ⟨.yield_expr, some 2, false⟩]

/-- C7 (code bug): for `def g(): for x in [1, 2]: yield x` — a single-name
`for` loop directly in the function body — the linearization check
`parent == self` compares the original funcdef tree node with the execution
context and fails, so the walk takes the unordered merged fallback instead of
the ordered per-iteration path; and a bare yield (no enclosing for/while/if)
walks up to the module root, whose parent is `None`, so `parent.type` raises
`AttributeError`. -/
theorem C7_yield_grouping_falls_back :
    yieldGrouping exampleGenTree [5] = .fallbackMerged ∧
      yieldGrouping bareYieldTree [3] = .crash := by
  constructor
  · rfl
  · rfl

/-! ### Temporary loop-variable binding —
`FunctionExecutionContext.get_yield_values` (representation.py 700-716) -/

/-- The evaluator's shared `predefined_if_name_dict_dict`: a map from a `for`
statement node to the temporary binding of its loop variable (the
`index_types` bound under `str(for_stmt.children[1])`). -/
abbrev PredefinedDicts := List (Nat × Finset Nat)

/-- Dict assignment `evaluator.predefined_if_name_dict_dict[for_stmt] = dct`. -/
def insertBinding (m : PredefinedDicts) (k : Nat) (v : Finset Nat) :
    PredefinedDicts :=
  (k, v) :: m.filter (fun e => e.1 != k)

/-- Dict deletion `del evaluator.predefined_if_name_dict_dict[for_stmt]`
(line 716). -/
def deleteBinding (m : PredefinedDicts) (k : Nat) : PredefinedDicts :=
  m.filter (fun e => e.1 != k)

/-- The `for index_types in ordered:` region of `get_yield_values` (710-716)
for one grouped `for` statement: per produced element of the loop's input,
install the loop-variable binding into the shared map, evaluate and emit each
yield of the group, then delete the binding and continue with the next
element.  Each emission records the map state at the moment the generator
suspends there; a consumer that abandons the generator at an emission leaves
the evaluator in exactly that state, because the region has no try/finally
and the `del` of line 716 does not run for an abandoned suspension.
`evalYield y elem` abstracts `self._eval_yield(...)` under the installed
binding. -/
def yieldLoopRegion (forId : Nat) (yields : List Nat)
    (evalYield : Nat → Finset Nat → Finset Nat)
    (elems : List (Finset Nat)) (st : PredefinedDicts) :
    List (Finset Nat × PredefinedDicts) × PredefinedDicts :=
  elems.foldl
    (fun acc elem =>
      let st1 := insertBinding acc.2 forId elem
      let emits := yields.map (fun y => (evalYield y elem, st1))
      (acc.1 ++ emits, deleteBinding st1 forId))
    ([], st)

theorem deleteBinding_insertBinding (m : PredefinedDicts) (k : Nat)
    (v : Finset Nat) (h : ∀ e ∈ m, e.1 ≠ k) :
    deleteBinding (insertBinding m k v) k = m := by
  rw [insertBinding, deleteBinding, List.filter]
  have hk : ((k, v).1 != k) = false := by simp
  rw [hk, List.filter_filter]
  rw [show ∀ l : PredefinedDicts, ∀ p : Nat × Finset Nat → Bool,
      l.filter (fun a => p a && p a) = l.filter p from fun l p => by
    simp [Bool.and_self]]
  exact List.filter_eq_self.mpr (fun e he => by simpa using h e he)

/-- C10 (amended): when the generator walk of one grouped `for` statement is
run to completion (every emission consumed), the temporary loop-variable
binding is removed from the shared map on each modeled iteration and the map
ends exactly as it started. -/
theorem C10_binding_removed_on_completion (forId : Nat) (yields : List Nat)
    (evalYield : Nat → Finset Nat → Finset Nat) (elems : List (Finset Nat))
    (st : PredefinedDicts) (h : ∀ e ∈ st, e.1 ≠ forId) :
    (yieldLoopRegion forId yields evalYield elems st).2 = st := by
  rw [yieldLoopRegion]
  suffices hgen : ∀ (acc : List (Finset Nat × PredefinedDicts)),
      (elems.foldl
        (fun acc elem =>
          let st1 := insertBinding acc.2 forId elem
          let emits := yields.map (fun y => (evalYield y elem, st1))
          (acc.1 ++ emits, deleteBinding st1 forId))
        (acc, st)).2 = st by
    exact hgen []
  induction elems with
  | nil => intro acc; rfl
  | cons e es ih =>
      intro acc
      rw [List.foldl_cons]
      simpa [deleteBinding_insertBinding st forId e h] using
        ih (acc ++ yields.map (fun y => (evalYield y e, insertBinding st forId e)))

/-- Witness for C10: a concrete two-iteration loop walk over an initially
empty map runs to completion with the map restored to empty. -/
theorem C10_binding_removed_on_completion_witness :
    (∀ e ∈ ([] : PredefinedDicts), e.1 ≠ 3) ∧
      (yieldLoopRegion 3 [5] (fun _ elem => elem) [{1}, {2}] []).2 = [] :=
  ⟨fun e he => absurd he (List.not_mem_nil e),
    C10_binding_removed_on_completion 3 [5] (fun _ elem => elem) [{1}, {2}] []
      (fun e he => absurd he (List.not_mem_nil e))⟩

/-- C10 counterexample: the binding is not removed on every exit path — a
consumer that abandons the generator at the very first emission observes the
shared map still holding the loop-variable binding for the `for` statement
(node 3), not the empty map it started from. -/
theorem C10_counterexample :
    ((yieldLoopRegion 3 [5] (fun _ elem => elem) [{1}, {2}] []).1.head?.map
        Prod.snd) = some [(3, {1})] ∧
      some [(3, ({1} : Finset Nat))] ≠
        some ([] : PredefinedDicts) := by
  constructor
  · rfl
  · simp

end JediRep
